import Mathlib

/-!
Verification development for the regime-classifier repository.

The Python sources are shallowly embedded as Lean definitions:

* pandas Series and DataFrame columns become `List (Option ℚ)`,
  where `none` stands for a NaN cell and `some q` for a finite value;
* machine floats become `ℚ`; the two transcendental operations that the
  feature code uses (natural log inside `log_return`, square root inside
  the rolling standard deviation) are abstracted as function parameters
  `ln sq : ℚ → ℚ` because no claim depends on their numeric values, only
  on where NaN cells appear and which windows are used.  All theorems
  are quantified over these parameters;
* stateful code (the trainer promotion transaction, the ingestor message
  handler, the worker stream loop) becomes explicit state passing where
  each fallible external call is represented by its outcome.

Every definition is translated from the repository sources; the
definitions whose names start with `claim` follow the wording of the
specification instead and exist only to be compared against the code.
-/

/-! ### Generic series combinators (pandas rolling semantics)

`rollingApply w f xs` models `xs.rolling(window=w).agg(f)` with the
pandas default `min_periods = w`: the cell at index `t` is defined
exactly when the window fits (`w ≤ t+1`) and every cell inside the
window `xs[t+1-w .. t]` is non-NaN.
-/

def allSome : List (Option ℚ) → Option (List ℚ)
  | [] => some []
  | none :: _ => none
  | some x :: rest => (allSome rest).map (fun l => x :: l)

def listMean (l : List ℚ) : ℚ := l.sum / l.length

/-- Sample variance with `ddof = 1`, as pandas `rolling.std` squares. -/
def listVar (l : List ℚ) : ℚ :=
  ((l.map (fun x => (x - listMean l) ^ 2)).sum) / ((l.length : ℚ) - 1)

def rollingApply (w : ℕ) (f : List ℚ → ℚ) (xs : List (Option ℚ)) : List (Option ℚ) :=
  (List.range xs.length).map (fun t =>
    if w ≤ t + 1 then (allSome ((xs.drop (t + 1 - w)).take w)).map f else none)

/-- `Series.diff()`: NaN at index 0, elementwise difference afterwards,
NaN cells propagate. -/
def diffO (xs : List (Option ℚ)) : List (Option ℚ) :=
  (List.range xs.length).map (fun t =>
    if t = 0 then none else
      match xs.getD t none, xs.getD (t - 1) none with
      | some a, some b => some (a - b)
      | _, _ => none)

/-- `Series.pct_change()` over an all-finite close series:
NaN at index 0, `x_t / x_{t-1} - 1` afterwards.  (The close prices the
pipeline feeds in are nonzero, so the rational division is faithful.) -/
def pctChange (closes : List ℚ) : List (Option ℚ) :=
  (List.range closes.length).map (fun t =>
    if t = 0 then none else some (closes.getD t 0 / closes.getD (t - 1) 0 - 1))

/-- A series whose NaN cells are exactly the indices below `k` (the
warm-up shape every feature column of the pipeline has). -/
def NonePrefix (k : ℕ) (xs : List (Option ℚ)) : Prop :=
  ∀ t, t < xs.length → (xs.getD t none = none ↔ t < k)

/-! ### Worker feature library
`packages/quant_engine/src/quant_engine/analytics.py`,
`calculate_technical_indicators(candles, window_size=100)` and
`calculate_rsi(series, window=14)`.  The candle list arrives sorted by
timestamp; only the close column feeds the indicators. -/

def workerReturns (closes : List ℚ) : List (Option ℚ) := pctChange closes

/-- `df['volatility'] = df['returns'].rolling(window=window_size).std()`;
`sq` abstracts the square root applied to the sample variance. -/
def workerVolatility (sq : ℚ → ℚ) (closes : List ℚ) (w : ℕ) : List (Option ℚ) :=
  rollingApply w (fun l => sq (listVar l)) (workerReturns closes)

/-- `df['sma'] = df['close'].rolling(window=window_size).mean()` -/
def workerSma (closes : List ℚ) (w : ℕ) : List (Option ℚ) :=
  rollingApply w listMean (closes.map some)

/-- `df['sma_slope'] = df['sma'].diff()` -/
def workerSmaSlope (closes : List ℚ) (w : ℕ) : List (Option ℚ) :=
  diffO (workerSma closes w)

/-- `delta.where(delta > 0, 0)`: the per-cell gain, nonnegative.  A NaN
delta (index 0 of `diff()`) fails the comparison — `NaN > 0` is False —
so `where` replaces it by 0: the gain series is all-finite. -/
def gainsOf (closes : List ℚ) : List (Option ℚ) :=
  (diffO (closes.map some)).map (fun d =>
    match d with
    | some v => some (if 0 < v then v else 0)
    | none => some 0)

/-- `-delta.where(delta < 0, 0)`: the per-cell loss, nonnegative.  As in
`gainsOf`, the NaN delta fails `delta < 0` and becomes 0 (negated, still
0), so the loss series is all-finite as well. -/
def lossesOf (closes : List ℚ) : List (Option ℚ) :=
  (diffO (closes.map some)).map (fun d =>
    match d with
    | some v => some (if v < 0 then -v else 0)
    | none => some 0)

def meanGain14 (closes : List ℚ) : List (Option ℚ) :=
  rollingApply 14 listMean (gainsOf closes)

def meanLoss14 (closes : List ℚ) : List (Option ℚ) :=
  rollingApply 14 listMean (lossesOf closes)

/-- `calculate_rsi`: `rs = gain / loss; rsi = 100 - 100 / (1 + rs)` with
IEEE float division.  Both operands are nonnegative means, so the only
special cases are `0/0 = NaN` (hence RSI NaN) and `g/0 = +inf` for
`g > 0` (hence RSI exactly 100); otherwise the arithmetic is finite and
matches the rational formula. -/
def workerRsi (closes : List ℚ) : List (Option ℚ) :=
  (List.range closes.length).map (fun t =>
    match (meanGain14 closes).getD t none, (meanLoss14 closes).getD t none with
    | some g, some l =>
        if l = 0 then (if g = 0 then none else some 100)
        else some (100 - 100 / (1 + g / l))
    | _, _ => none)

/-- Modelled from the spec: the worker volatility as claim C2 states it,
with a 24-period rolling window (the source instead passes its single
`window_size` parameter, default 100, to both volatility and SMA). -/
def claimWorkerVolatility24 (sq : ℚ → ℚ) (closes : List ℚ) : List (Option ℚ) :=
  workerVolatility sq closes 24

/-! ### Trainer feature library
`packages/common/src/common/features.py`, `calculate_features(df)`.
The frame is sorted by time before the derived columns are added. -/

/-- `df['log_return'] = np.log(df['close'] / df['close'].shift(1))`;
`ln` abstracts the natural log. -/
def trainerLogReturn (ln : ℚ → ℚ) (closes : List ℚ) : List (Option ℚ) :=
  (List.range closes.length).map (fun t =>
    if t = 0 then none else some (ln (closes.getD t 0 / closes.getD (t - 1) 0)))

/-- `df['volatility_24h'] = df['log_return'].rolling(window=24).std()` -/
def trainerVol24 (ln sq : ℚ → ℚ) (closes : List ℚ) : List (Option ℚ) :=
  rollingApply 24 (fun l => sq (listVar l)) (trainerLogReturn ln closes)

/-- `df['sma_50'] = df['close'].rolling(window=50).mean()` -/
def trainerSma50 (closes : List ℚ) : List (Option ℚ) :=
  rollingApply 50 listMean (closes.map some)

/-- `rs = gain / loss.replace(0, np.nan)`;
`df['rsi_14'] = (100 - 100 / (1 + rs)).fillna(100)`.
The final `fillna(100)` makes the column total: every NaN cell, whether
it came from a zero mean loss or from the rolling warm-up, becomes 100. -/
def trainerRsi14 (closes : List ℚ) : List ℚ :=
  (List.range closes.length).map (fun t =>
    match (meanGain14 closes).getD t none, (meanLoss14 closes).getD t none with
    | some g, some l => if l = 0 then (100 : ℚ) else 100 - 100 / (1 + g / l)
    | _, _ => 100)

/-! ### Worker ML classification
`packages/quant_engine/src/quant_engine/classifier.py`,
`RegimeClassifier._classify_ml`.  A pandas row is embedded as an
association list from column name to value; by the time `_classify_ml`
runs, `classify` has already checked that the `volatility` column is
present and non-NaN. -/

/-- `features = [state['volatility'], state.get('sma_slope', 0), state.get('rsi', 50)]` -/
def workerFeatureVector (state : List (String × ℚ)) : List ℚ :=
  [(state.lookup "volatility").getD 0,
   (state.lookup "sma_slope").getD 0,
   (state.lookup "rsi").getD 50]

/-- Modelled from the spec: compose the feature vector in the order
dictated by the `feature_cols` list from the model record (spec section
4.2); the source hard-codes the vector instead. -/
def claimComposeByFeatureCols (cols : List String) (state : List (String × ℚ)) : List ℚ :=
  cols.map (fun c => (state.lookup c).getD 0)

/-- `feature_cols = ['log_return', 'volatility_24h', 'rsi_14']` persisted
by `packages/lab/training.py` into the model record. -/
def trainerFeatureCols : List String := ["log_return", "volatility_24h", "rsi_14"]

def zipW3 (f : ℚ → ℚ → ℚ → ℚ) : List ℚ → List ℚ → List ℚ → List ℚ
  | x :: xs, y :: ys, z :: zs => f x y z :: zipW3 f xs ys zs
  | _, _, _ => []

/-- The scaling step of `_classify_ml`:
`if scaler_scale.any(): scaled = (vec - mean) / scale else: scaled = vec`.
numpy `.any()` is true when some component is nonzero, and the division
is componentwise over the whole vector with no per-component zero guard. -/
def scaledVector (x mu sigma : List ℚ) : List ℚ :=
  if sigma.any (fun s => decide (s ≠ 0)) then
    zipW3 (fun xi mi si => (xi - mi) / si) x mu sigma
  else x

/-- Modelled from the spec: `z_i = (x_i - mu_i) / sigma_i`, treating a
zero `sigma_i` as 1, i.e. that component is only centered (spec 4.2). -/
def claimScaledVector (x mu sigma : List ℚ) : List ℚ :=
  zipW3 (fun xi mi si => if si = 0 then xi - mi else (xi - mi) / si) x mu sigma

/-! ### Trainer auto-labeling
`packages/lab/training.py`, lines 74-156.  Only the first two scaled
components of each centroid are consulted (`c[0]` the log return,
`c[1]` the volatility), so a centroid is embedded as that pair; the
scaler is `inverse_transform`, i.e. `orig = scaled * scale_ + mean_`
componentwise. -/

structure CStat where
  cid : ℕ
  avg_ret : ℚ
  avg_vol : ℚ
  sret : ℚ
  svol : ℚ
deriving Repr, DecidableEq

def mkClusterStats (centroids : List (ℚ × ℚ)) (m0 s0 m1 s1 : ℚ) : List CStat :=
  centroids.enum.map (fun p =>
    { cid := p.1
      avg_ret := p.2.1 * s0 + m0
      avg_vol := p.2.2 * s1 + m1
      sret := p.2.1
      svol := p.2.2 })

/-- `cluster_stats.sort(key=lambda x: x['avg_vol'], reverse=True)`:
Python sorts stably; a stable sort by descending key has a unique
output, here realized by insertion sort. -/
def sortClusterStats (stats : List CStat) : List CStat :=
  stats.insertionSort (fun a b => b.avg_vol ≤ a.avg_vol)

/-- The selection loop pattern used twice by the trainer: start from
`None` with score minus infinity and keep the strictly larger key, so
the first maximiser in iteration order wins. -/
def pickMax {α : Type} (key : α → ℚ) (l : List α) : Option α :=
  l.foldl (fun acc s =>
    match acc with
    | none => some s
    | some b => if key b < key s then some s else acc) none

/-- `score = scaled_vol - scaled_ret`, maximised over the stats sorted by
average volatility descending. -/
def selectPanic (stats : List CStat) : Option CStat :=
  pickMax (fun st => st.svol - st.sret) (sortClusterStats stats)

/-- Among the remaining clusters (ascending id, as CPython iterates a
set of small ints), the one with the highest inverse-transformed return. -/
def selectBull (stats : List CStat) (panicCid : ℕ) : Option CStat :=
  pickMax (fun st => st.avg_ret) (stats.filter (fun st => decide (st.cid ≠ panicCid)))

/-- The `regime_labels` dict built by the trainer, as a total function on
cluster ids. -/
def autoLabel (centroids : List (ℚ × ℚ)) (m0 s0 m1 s1 : ℚ) : ℕ → String :=
  let stats := mkClusterStats centroids m0 s0 m1 s1
  match selectPanic stats with
  | none => fun cid => "REGIME_" ++ toString cid
  | some p =>
    match selectBull stats p.cid with
    | none => fun cid => if cid = p.cid then "PANIC" else "REGIME_" ++ toString cid
    | some b => fun cid =>
        if cid = p.cid then "PANIC"
        else if cid = b.cid then "BULL"
        else "REGIME_" ++ toString cid

/-! ### Trainer model promotion
`packages/lab/training.py`, lines 169-192.  The session is created with
`autocommit=False`, so the `UPDATE ... SET is_active=false` and the
`db.add(new_model)` live in one transaction: `db.commit()` applies both
writes, and on any exception `db.rollback()` discards both.  The two
possible committed states are therefore the fully-applied one and the
untouched one, which the boolean `ok` selects. -/

structure RegRow where
  rid : ℕ
  is_active : Bool
deriving Repr, DecidableEq

def deactivateAll (rows : List RegRow) : List RegRow :=
  rows.map (fun r => { r with is_active := false })

def promote (rows : List RegRow) (newRow : RegRow) (ok : Bool) : List RegRow :=
  if ok then deactivateAll rows ++ [{ newRow with is_active := true }] else rows

def countActive (rows : List RegRow) : ℕ :=
  (rows.filter (fun r => r.is_active)).length

/-! ### Ingestor symbol normalization
`packages/sentinel/sentinel/connector.py`, line 93:
`symbol = raw_symbol.replace("USDT", "-USD")`.  Python `str.replace`
rewrites every non-overlapping occurrence scanning left to right; it is
embedded over `List Char` with a fuel argument equal to the string
length, which suffices because every step consumes at least one
character. -/

def startsWith : List Char → List Char → Bool
  | _, [] => true
  | [], _ :: _ => false
  | c :: t, p :: ps => c == p && startsWith t ps

def hasSub : List Char → List Char → Bool
  | [], pat => startsWith [] pat
  | s@(_ :: t), pat => startsWith s pat || hasSub t pat

def replaceAllAux (pat rep : List Char) : ℕ → List Char → List Char
  | _, [] => []
  | 0, s => s
  | fuel + 1, c :: t =>
      if startsWith (c :: t) pat then
        rep ++ replaceAllAux pat rep fuel (t.drop (pat.length - 1))
      else c :: replaceAllAux pat rep fuel t

def pyReplace (pat rep s : List Char) : List Char :=
  replaceAllAux pat rep s.length s

def usdtChars : List Char := ['U', 'S', 'D', 'T']

def dashUsdChars : List Char := ['-', 'U', 'S', 'D']

def normalizeSymbol (s : List Char) : List Char :=
  pyReplace usdtChars dashUsdChars s

/-! ### Ingestor publish and message handling
`packages/sentinel/src/sentinel/producer.py` and
`packages/sentinel/sentinel/connector.py`. -/

structure StreamEntry where
  sym : List Char
  ts : ℤ
deriving Repr, DecidableEq

/-- The `xadd` call of `publish_candle`: `self.redis.xadd(stream_key,
payload)` with no `maxlen` argument, hence a plain append. -/
def publishCandle (stream : List StreamEntry) (entry : StreamEntry) : List StreamEntry :=
  stream ++ [entry]

/-- `n` successive publishes. -/
def publishN : ℕ → List StreamEntry → StreamEntry → List StreamEntry
  | 0, s, _ => s
  | n + 1, s, e => publishN n (publishCandle s e) e

/-- `publish_candle` wraps its whole body in `try/except Exception`,
logging on failure, so it returns normally whatever the redis client
does; `pubOk` is the outcome of the `xadd` call. -/
def publishCandleGuarded (stream : List StreamEntry) (entry : StreamEntry)
    (pubOk : Bool) : List StreamEntry :=
  if pubOk then publishCandle stream entry else stream

structure IngestState where
  dbRows : List StreamEntry
  stream : List StreamEntry
  heartbeat : ℤ
deriving Repr, DecidableEq

/-- `handle_message` after a closed-candle frame parsed successfully:
insert into the DB (an exception there is caught by the enclosing
`except`, aborting the rest), then `publish_candle` (which never
raises), then `health_monitor.update_heartbeat()`. -/
def handleClosedCandle (st : IngestState) (now : ℤ) (entry : StreamEntry)
    (insertOk pubOk : Bool) : IngestState :=
  if insertOk then
    let st1 : IngestState := { st with dbRows := st.dbRows ++ [entry] }
    let st2 : IngestState := { st1 with stream := publishCandleGuarded st1.stream entry pubOk }
    { st2 with heartbeat := now }
  else st

/-- `HealthMonitor.is_healthy`: the heartbeat is younger than the
liveness threshold. -/
def isHealthy (hb now threshold : ℤ) : Bool := decide (now - hb < threshold)

/-! ### Classifier worker stream loop
`packages/quant_engine/src/quant_engine/main.py`.  Each stream entry is
handled inside one `try` block: parse, process, `xack`; any exception
skips the ack.  `process_candle` catches history-fetch errors itself
(falling back to an empty history), merges the incoming candle into the
window, classifies, and only writes when a result was produced. -/

structure WCandle where
  sym : List Char
  tstamp : ℤ
deriving Repr, DecidableEq

/-- The history-merge of `process_candle`: if the last DB row carries the
incoming timestamp the DB row is authoritative, otherwise append. -/
def mergeWindow (history : List WCandle) (c : WCandle) : List WCandle :=
  match history.getLast? with
  | some last => if last.tstamp = c.tstamp then history else history ++ [c]
  | none => history ++ [c]

/-- History after the internal `try/except` around the DB fetch. -/
def historyOf (histRes : Except String (List WCandle)) : List WCandle :=
  match histRes with
  | .error _ => []
  | .ok h => h

/-- `process_candle`: classify the merged window; `none` from the
classifier (insufficient data) writes nothing and returns normally; a
produced result is saved, and a save failure propagates. -/
def processCandle {ρ : Type} (histRes : Except String (List WCandle)) (c : WCandle)
    (classify : List WCandle → Option ρ) (save : ρ → Except String Unit) :
    Except String (Option ρ) :=
  let window := mergeWindow (historyOf histRes) c
  match classify window with
  | some r =>
    match save r with
    | .ok _ => .ok (some r)
    | .error e => .error e
  | none => .ok none

/-- One iteration of the per-message `try` block: returns whether the
entry was acked and what was written. -/
def handleEntry {ρ : Type} (parse : Except String WCandle)
    (histRes : Except String (List WCandle)) (classify : List WCandle → Option ρ)
    (save : ρ → Except String Unit) : Bool × Option ρ :=
  match parse with
  | .error _ => (false, none)
  | .ok c =>
    match processCandle histRes c classify save with
    | .ok w => (true, w)
    | .error _ => (false, none)

/-! ## Lemmas and theorems -/

/-! ### Series toolkit -/

theorem getD_map_range {α : Type} (n : ℕ) (f : ℕ → α) (t : ℕ) (d : α) (ht : t < n) :
    ((List.range n).map f).getD t d = f t := by
  have hlen : t < ((List.range n).map f).length := by simpa using ht
  rw [List.getD_eq_getElem _ _ hlen, List.getElem_map, List.getElem_range]

theorem allSome_eq_none_iff (l : List (Option ℚ)) : allSome l = none ↔ none ∈ l := by
  induction l with
  | nil => simp [allSome]
  | cons h t ih =>
    cases h with
    | none => simp [allSome]
    | some x =>
      cases hrec : allSome t with
      | none => simp [allSome, hrec, ih.mp hrec]
      | some v =>
        have hnm : ¬ (none ∈ t) := fun hm => by
          rw [ih.mpr hm] at hrec; exact Option.noConfusion hrec
        simp [allSome, hrec, hnm]

theorem length_rollingApply (w : ℕ) (f : List ℚ → ℚ) (xs : List (Option ℚ)) :
    (rollingApply w f xs).length = xs.length := by
  simp [rollingApply]

theorem rollingApply_getD (w : ℕ) (f : List ℚ → ℚ) (xs : List (Option ℚ)) (t : ℕ)
    (ht : t < xs.length) :
    (rollingApply w f xs).getD t none =
      if w ≤ t + 1 then (allSome ((xs.drop (t + 1 - w)).take w)).map f else none := by
  rw [rollingApply, getD_map_range _ _ _ _ ht]

theorem mem_window_iff (xs : List (Option ℚ)) (a w : ℕ) (hfit : a + w ≤ xs.length) :
    (none ∈ (xs.drop a).take w) ↔ ∃ i, i < w ∧ xs.getD (a + i) none = none := by
  constructor
  · intro hm
    obtain ⟨i, hi, hemi⟩ := List.mem_iff_getElem.mp hm
    have hi2 : i < w := by
      have := List.length_take w (xs.drop a)
      omega
    refine ⟨i, hi2, ?_⟩
    have hai : a + i < xs.length := by omega
    rw [List.getD_eq_getElem _ _ hai]
    rw [List.getElem_take, List.getElem_drop] at hemi
    exact hemi
  · rintro ⟨i, hiw, hnone⟩
    have hai : a + i < xs.length := by omega
    have h1 : i < (xs.drop a).length := by
      rw [List.length_drop]; omega
    have h2 : i < ((xs.drop a).take w).length := by
      rw [List.length_take]; exact lt_min hiw h1
    refine List.mem_iff_getElem.mpr ⟨i, h2, ?_⟩
    rw [List.getElem_take, List.getElem_drop]
    rw [List.getD_eq_getElem _ _ hai] at hnone
    exact hnone

/-- Central warm-up lemma: rolling a window of width `w ≥ 1` over a
series whose NaN cells are exactly the first `k` turns the cell at `t`
into NaN exactly when `t < w + k - 1`. -/
theorem rollingApply_none_iff (w k : ℕ) (hw : 1 ≤ w) (f : List ℚ → ℚ)
    (xs : List (Option ℚ)) (hk : NonePrefix k xs) (t : ℕ) (ht : t < xs.length) :
    ((rollingApply w f xs).getD t none = none ↔ t < w + k - 1) := by
  rw [rollingApply_getD _ _ _ _ ht]
  by_cases hfits : w ≤ t + 1
  · rw [if_pos hfits]
    have hfit : (t + 1 - w) + w ≤ xs.length := by omega
    constructor
    · intro hnone
      have : allSome ((xs.drop (t + 1 - w)).take w) = none := by
        cases hall : allSome ((xs.drop (t + 1 - w)).take w) with
        | none => rfl
        | some v => rw [hall] at hnone; exact Option.noConfusion hnone
      obtain ⟨i, hiw, hni⟩ := (mem_window_iff xs _ w hfit).mp
        ((allSome_eq_none_iff _).mp this)
      have hidx : t + 1 - w + i < xs.length := by omega
      have := (hk _ hidx).mp hni
      omega
    · intro hlt
      have hik : t + 1 - w < k := by omega
      have hidx : t + 1 - w + 0 < xs.length := by omega
      have h0 : xs.getD (t + 1 - w + 0) none = none := (hk _ hidx).mpr (by omega)
      have hmem : none ∈ (xs.drop (t + 1 - w)).take w :=
        (mem_window_iff xs _ w hfit).mpr ⟨0, by omega, h0⟩
      rw [(allSome_eq_none_iff _).mpr hmem]
      rfl
  · rw [if_neg hfits]
    constructor
    · intro _; omega
    · intro _; rfl

theorem length_workerReturns (closes : List ℚ) :
    (workerReturns closes).length = closes.length := by
  simp [workerReturns, pctChange]

theorem nonePrefix_workerReturns (closes : List ℚ) :
    NonePrefix 1 (workerReturns closes) := by
  intro t ht
  rw [length_workerReturns] at ht
  rw [workerReturns, pctChange, getD_map_range _ _ _ _ ht]
  by_cases h0 : t = 0 <;> simp [h0]

theorem length_trainerLogReturn (ln : ℚ → ℚ) (closes : List ℚ) :
    (trainerLogReturn ln closes).length = closes.length := by
  simp [trainerLogReturn]

theorem nonePrefix_trainerLogReturn (ln : ℚ → ℚ) (closes : List ℚ) :
    NonePrefix 1 (trainerLogReturn ln closes) := by
  intro t ht
  rw [length_trainerLogReturn] at ht
  rw [trainerLogReturn, getD_map_range _ _ _ _ ht]
  by_cases h0 : t = 0 <;> simp [h0]

theorem nonePrefix_mapSome (closes : List ℚ) : NonePrefix 0 (closes.map some) := by
  intro t ht
  rw [List.length_map] at ht
  rw [List.getD_eq_getElem _ _ (by simpa using ht), List.getElem_map]
  simp

theorem length_diffO (xs : List (Option ℚ)) : (diffO xs).length = xs.length := by
  simp [diffO]

theorem nonePrefix_diffO (k : ℕ) (xs : List (Option ℚ)) (hk : NonePrefix k xs) :
    NonePrefix (k + 1) (diffO xs) := by
  intro t ht
  rw [length_diffO] at ht
  rw [diffO, getD_map_range _ _ _ _ ht]
  by_cases h0 : t = 0
  · simp [h0]
  · rw [if_neg h0]
    have ht1 : t - 1 < xs.length := by omega
    have hcur := hk t ht
    have hprev := hk (t - 1) ht1
    cases hc : xs.getD t none with
    | none =>
      have := (hcur.mp hc)
      simp only []
      constructor
      · intro _; omega
      · intro _; trivial
    | some a =>
      cases hp : xs.getD (t - 1) none with
      | none =>
        have := (hprev.mp hp)
        simp only []
        constructor
        · intro _; omega
        · intro _; trivial
      | some b =>
        have hc2 : ¬ t < k := fun hlt => by
          rw [hcur.mpr hlt] at hc; exact Option.noConfusion hc
        have hp2 : ¬ t - 1 < k := fun hlt => by
          rw [hprev.mpr hlt] at hp; exact Option.noConfusion hp
        simp only []
        constructor
        · intro hnone; exact absurd hnone (by simp)
        · intro hlt; omega

theorem nonePrefix_mapOption (k : ℕ) (f : ℚ → ℚ) (xs : List (Option ℚ))
    (hk : NonePrefix k xs) : NonePrefix k (xs.map (Option.map f)) := by
  intro t ht
  rw [List.length_map] at ht
  rw [List.getD_eq_getElem _ _ (by simpa using ht), List.getElem_map]
  rw [← List.getD_eq_getElem xs none ht]
  rcases hx : xs.getD t none with _ | v
  · simpa using (hk t ht).mp hx
  · have : ¬ t < k := fun hlt => by
      rw [(hk t ht).mpr hlt] at hx; exact Option.noConfusion hx
    simpa using this

theorem length_gainsOf (closes : List ℚ) : (gainsOf closes).length = closes.length := by
  simp [gainsOf, length_diffO]

theorem length_lossesOf (closes : List ℚ) : (lossesOf closes).length = closes.length := by
  simp [lossesOf, length_diffO]

theorem nonePrefix_gainsOf (closes : List ℚ) : NonePrefix 0 (gainsOf closes) := by
  intro t ht
  have ht2 : t < (diffO (closes.map some)).length := by
    rw [length_gainsOf] at ht
    rw [length_diffO, List.length_map]
    exact ht
  rw [gainsOf, List.getD_eq_getElem _ _ (by simpa [gainsOf] using ht), List.getElem_map]
  rcases (diffO (closes.map some))[t] with _ | v <;> simp

theorem nonePrefix_lossesOf (closes : List ℚ) : NonePrefix 0 (lossesOf closes) := by
  intro t ht
  have ht2 : t < (diffO (closes.map some)).length := by
    rw [length_lossesOf] at ht
    rw [length_diffO, List.length_map]
    exact ht
  rw [lossesOf, List.getD_eq_getElem _ _ (by simpa [lossesOf] using ht), List.getElem_map]
  rcases (diffO (closes.map some))[t] with _ | v <;> simp

theorem length_meanGain14 (closes : List ℚ) :
    (meanGain14 closes).length = closes.length := by
  rw [meanGain14, length_rollingApply, length_gainsOf]

theorem length_meanLoss14 (closes : List ℚ) :
    (meanLoss14 closes).length = closes.length := by
  rw [meanLoss14, length_rollingApply, length_lossesOf]

theorem meanGain14_none_iff (closes : List ℚ) (t : ℕ) (ht : t < closes.length) :
    ((meanGain14 closes).getD t none = none ↔ t < 13) := by
  have := rollingApply_none_iff 14 0 (by omega) listMean (gainsOf closes)
    (nonePrefix_gainsOf closes) t (by rw [length_gainsOf]; exact ht)
  simpa using this

theorem meanLoss14_none_iff (closes : List ℚ) (t : ℕ) (ht : t < closes.length) :
    ((meanLoss14 closes).getD t none = none ↔ t < 13) := by
  have := rollingApply_none_iff 14 0 (by omega) listMean (lossesOf closes)
    (nonePrefix_lossesOf closes) t (by rw [length_lossesOf]; exact ht)
  simpa using this

/-! ### Claim C2: rolling-window periods and warm-up NaN rows -/

/-- C2 (amended): in the trainer feature library the windows are 24
(volatility), 50 (SMA) and 14 (RSI), but in the worker library both
volatility and SMA use the `window_size` parameter that
`calculate_technical_indicators` is called with (default 100, since
`classify` passes no override), and only RSI uses 14.  Warm-up rows are
NaN for every column except `rsi_14`: the `where(..., 0)` turns the
index-0 diff NaN into 0, so the 14-period RSI means are already defined
at row 13 and the RSI warm-up covers rows 0..12; on those rows the
worker RSI is NaN while the trainer `rsi_14`, through `fillna(100)`,
is 100 instead of NaN. -/
theorem C2_window_periods (ln sq : ℚ → ℚ) (w : ℕ) (hw : 1 ≤ w) (closes : List ℚ)
    (t : ℕ) (ht : t < closes.length) :
    ((trainerVol24 ln sq closes).getD t none = none ↔ t < 24) ∧
    ((trainerSma50 closes).getD t none = none ↔ t < 49) ∧
    ((workerVolatility sq closes w).getD t none = none ↔ t < w) ∧
    ((workerSma closes w).getD t none = none ↔ t < w - 1) ∧
    (t < 13 → (workerRsi closes).getD t none = none) ∧
    (t < 13 → (trainerRsi14 closes).getD t 0 = 100) := by
  refine ⟨?_, ?_, ?_, ?_, ?_, ?_⟩
  · have := rollingApply_none_iff 24 1 (by omega) (fun l => sq (listVar l))
      (trainerLogReturn ln closes) (nonePrefix_trainerLogReturn ln closes) t
      (by rw [length_trainerLogReturn]; exact ht)
    simpa [trainerVol24] using this
  · have := rollingApply_none_iff 50 0 (by omega) listMean (closes.map some)
      (nonePrefix_mapSome closes) t (by simpa using ht)
    simpa [trainerSma50] using this
  · have := rollingApply_none_iff w 1 hw (fun l => sq (listVar l))
      (workerReturns closes) (nonePrefix_workerReturns closes) t
      (by rw [length_workerReturns]; exact ht)
    simpa [workerVolatility] using this
  · have := rollingApply_none_iff w 0 hw listMean (closes.map some)
      (nonePrefix_mapSome closes) t (by simpa using ht)
    simpa [workerSma] using this
  · intro h14
    have hg : (meanGain14 closes).getD t none = none :=
      (meanGain14_none_iff closes t ht).mpr h14
    rw [workerRsi, getD_map_range _ _ _ _ ht, hg]
  · intro h14
    have hg : (meanGain14 closes).getD t none = none :=
      (meanGain14_none_iff closes t ht).mpr h14
    rw [trainerRsi14, getD_map_range _ _ _ _ ht, hg]

/-- C2 counterexample: on 30 constant candles the worker volatility
(default `window_size = 100`) is still NaN at the last row, while the
24-period window the claim states would already be defined there; and
row 0 of the trainer `rsi_14` column, inside the warm-up prefix, is 100
rather than NaN. -/
theorem C2_counterexample :
    (workerVolatility id (List.replicate 30 (1 : ℚ)) 100).getD 29 (some 0) = none ∧
    ((claimWorkerVolatility24 id (List.replicate 30 (1 : ℚ))).getD 29 none).isSome = true ∧
    (trainerRsi14 (List.replicate 30 (1 : ℚ))).getD 0 0 = 100 := by
  refine ⟨?_, ?_, ?_⟩ <;> with_unfolding_all decide

/-- C2 witness: the amended statement at the concrete input
`closes = 30 ones`, `t = 10`, default worker window 100, every
hypothesis discharged. -/
theorem C2_window_periods_witness :
    ((trainerVol24 id id (List.replicate 30 (1 : ℚ))).getD 10 none = none ↔ 10 < 24) ∧
    ((trainerSma50 (List.replicate 30 (1 : ℚ))).getD 10 none = none ↔ 10 < 49) ∧
    ((workerVolatility id (List.replicate 30 (1 : ℚ)) 100).getD 10 none = none ↔ 10 < 100) ∧
    ((workerSma (List.replicate 30 (1 : ℚ)) 100).getD 10 none = none ↔ 10 < 100 - 1) ∧
    (workerRsi (List.replicate 30 (1 : ℚ))).getD 10 none = none ∧
    (trainerRsi14 (List.replicate 30 (1 : ℚ))).getD 10 0 = 100 := by
  have h := C2_window_periods id id 100 (by decide) (List.replicate 30 (1 : ℚ)) 10 (by decide)
  exact ⟨h.1, h.2.1, h.2.2.1, h.2.2.2.1, h.2.2.2.2.1 (by decide), h.2.2.2.2.2 (by decide)⟩

/-! ### Claim C8: RSI at rows with zero mean loss -/

/-- C8 (amended): at a row whose 14-period mean loss is zero, the
trainer library (`rsi_14` with its `replace(0, nan)` guard and
`fillna(100)`) always yields 100; the worker library
(`calculate_rsi`, plain IEEE division) yields 100 only when the mean
gain at that row is nonzero — with a zero mean gain the division is
`0/0` and the worker RSI is NaN instead. -/
theorem C8_rsi_zero_mean_loss (closes : List ℚ) (t : ℕ) (ht : t < closes.length)
    (hl : (meanLoss14 closes).getD t none = some 0) :
    (trainerRsi14 closes).getD t 0 = 100 ∧
    (∀ g, (meanGain14 closes).getD t none = some g → g ≠ 0 →
      (workerRsi closes).getD t none = some 100) := by
  constructor
  · rw [trainerRsi14, getD_map_range _ _ _ _ ht, hl]
    rcases (meanGain14 closes).getD t none with _ | g
    · rfl
    · simp
  · intro g hgain hg0
    rw [workerRsi, getD_map_range _ _ _ _ ht, hgain, hl]
    simp [hg0]

/-- C8 counterexample: on 15 constant closes, the last row has zero mean
loss (and zero mean gain), and the worker RSI there is NaN, not the 100
the claim states for both libraries. -/
theorem C8_counterexample :
    (meanLoss14 (List.replicate 15 (1 : ℚ))).getD 14 none = some 0 ∧
    (workerRsi (List.replicate 15 (1 : ℚ))).getD 14 none = none ∧
    (workerRsi (List.replicate 15 (1 : ℚ))).getD 14 none ≠ some 100 := by
  refine ⟨?_, ?_, ?_⟩ <;> with_unfolding_all decide

/-- C8 witness: the amended statement at 14 strictly increasing closes,
row 13 — the first row at which the rolling means are defined, since
`where(..., 0)` maps the index-0 diff NaN to 0 — where the mean loss is
zero and the mean gain is 13/14, every hypothesis discharged. -/
theorem C8_rsi_zero_mean_loss_witness :
    (trainerRsi14 [1, 2, 3, 4, 5, 6, 7, 8, 9, 10, 11, 12, 13, (14 : ℚ)]).getD 13 0 = 100 ∧
    (workerRsi [1, 2, 3, 4, 5, 6, 7, 8, 9, 10, 11, 12, 13, (14 : ℚ)]).getD 13 none =
      some 100 := by
  have h := C8_rsi_zero_mean_loss
    [1, 2, 3, 4, 5, 6, 7, 8, 9, 10, 11, 12, 13, (14 : ℚ)] 13 (by decide)
    (by with_unfolding_all decide)
  exact ⟨h.1, h.2 (13 / 14) (by with_unfolding_all decide) (by norm_num)⟩

/-! ### Claim C4: standardization of the feature vector -/

theorem zipW3_div_eq_claim (x mu sigma : List ℚ) (hnz : ∀ s ∈ sigma, s ≠ 0) :
    zipW3 (fun xi mi si => (xi - mi) / si) x mu sigma = claimScaledVector x mu sigma := by
  rw [claimScaledVector]
  induction x generalizing mu sigma with
  | nil => cases mu <;> cases sigma <;> rfl
  | cons xh xt ih =>
    cases mu with
    | nil => cases sigma <;> rfl
    | cons mh mt =>
      cases sigma with
      | nil => rfl
      | cons sh st =>
        have hsh : sh ≠ 0 := hnz sh (List.mem_cons_self _ _)
        have hrest : ∀ s ∈ st, s ≠ 0 := fun s hs => hnz s (List.mem_cons_of_mem _ hs)
        simp only [zipW3, if_neg hsh]
        rw [ih mt st hrest]

/-- C4 (amended): the worker scales with a single vector-level branch,
not a per-component guard.  If some `sigma` component is nonzero the
whole vector is standardized componentwise — so the claimed formula
holds whenever every `sigma_i` is nonzero — but a zero component inside
a mixed vector is divided by zero rather than treated as 1; and if every
component of `sigma` is zero the raw vector is used, neither centered
nor scaled. -/
theorem C4_standardization (x mu sigma : List ℚ) :
    (sigma ≠ [] → (∀ s ∈ sigma, s ≠ 0) →
      scaledVector x mu sigma = claimScaledVector x mu sigma) ∧
    ((∀ s ∈ sigma, s = 0) → scaledVector x mu sigma = x) := by
  constructor
  · intro hne hnz
    obtain ⟨s0, hs0⟩ : ∃ s, s ∈ sigma := by
      cases sigma with
      | nil => exact absurd rfl hne
      | cons a l => exact ⟨a, List.mem_cons_self _ _⟩
    have hany : sigma.any (fun s => decide (s ≠ 0)) = true :=
      List.any_eq_true.mpr ⟨s0, hs0, by simpa using hnz s0 hs0⟩
    rw [scaledVector, if_pos hany]
    exact zipW3_div_eq_claim x mu sigma hnz
  · intro hz
    have hany : sigma.any (fun s => decide (s ≠ 0)) = false := by
      rw [List.any_eq_false]
      intro s hs
      simpa using hz s hs
    rw [scaledVector, if_neg (by rw [hany]; exact Bool.false_ne_true)]

/-- C4 counterexample: with `sigma = [0]`, `mu = [1]`, `x = [5]` the
claimed guard gives `z = [x - mu] = [4]`, but the code takes the
unscaled branch (`scaler_scale.any()` is false) and returns `[5]`,
without even subtracting the mean. -/
theorem C4_counterexample :
    scaledVector [5] [1] [0] = [5] ∧
    claimScaledVector [5] [1] [0] = [4] ∧
    scaledVector [5] [1] [0] ≠ claimScaledVector [5] [1] [0] := by
  refine ⟨?_, ?_, ?_⟩ <;> with_unfolding_all decide

/-- C4 witness: both branches of the amended statement at concrete
inputs with their hypotheses discharged. -/
theorem C4_standardization_witness :
    scaledVector [3] [1] [2] = claimScaledVector [3] [1] [2] ∧
    scaledVector [3] [1] [0] = [3] :=
  ⟨(C4_standardization [3] [1] [2]).1 (by simp)
      (by intro s hs; simp at hs; rw [hs]; norm_num),
   (C4_standardization [3] [1] [0]).2 (by intro s hs; simpa using hs)⟩

/-! ### Claim C1: feature-vector order versus persisted feature_cols -/

/-- C1: the trainer persists `feature_cols = [log_return, volatility_24h,
rsi_14]`, but on a row carrying all six feature columns the worker
composes `[volatility, sma_slope, rsi]`, not the columns the persisted
list dictates — the worker never reads `feature_cols`, contradicting its
own comment that the vector needs to match the training features. -/
theorem C1_feature_order_mismatch :
    trainerFeatureCols = ["log_return", "volatility_24h", "rsi_14"] ∧
    workerFeatureVector
      [("log_return", 1), ("volatility_24h", 2), ("rsi_14", 3),
       ("volatility", 4), ("sma_slope", 5), ("rsi", 6)] = [4, 5, 6] ∧
    claimComposeByFeatureCols trainerFeatureCols
      [("log_return", 1), ("volatility_24h", 2), ("rsi_14", 3),
       ("volatility", 4), ("sma_slope", 5), ("rsi", 6)] = [1, 2, 3] ∧
    workerFeatureVector
      [("log_return", 1), ("volatility_24h", 2), ("rsi_14", 3),
       ("volatility", 4), ("sma_slope", 5), ("rsi", 6)] ≠
      claimComposeByFeatureCols trainerFeatureCols
        [("log_return", 1), ("volatility_24h", 2), ("rsi_14", 3),
         ("volatility", 4), ("sma_slope", 5), ("rsi", 6)] := by
  refine ⟨rfl, ?_, ?_, ?_⟩ <;> with_unfolding_all decide

/-! ### Claim C3: atomic model promotion -/

/-- C3: the promotion transaction commits the deactivation UPDATE and the
INSERT together or not at all: a committed promotion leaves exactly one
active registry row whatever the registry held before, a rolled-back
promotion leaves the registry untouched (the previously active model
stays active), and the at-most-one-active invariant is preserved by
every outcome. -/
theorem C3_promotion_atomic (rows : List RegRow) (newRow : RegRow) :
    countActive (promote rows newRow true) = 1 ∧
    promote rows newRow false = rows ∧
    (∀ ok, countActive rows ≤ 1 → countActive (promote rows newRow ok) ≤ 1) := by
  have hzero : countActive (deactivateAll rows) = 0 := by
    simp [countActive, deactivateAll, List.filter_map]
  refine ⟨?_, rfl, ?_⟩
  · rw [promote, if_pos rfl, countActive, List.filter_append]
    rw [countActive] at hzero
    simp [hzero]
  · intro ok hle
    cases ok with
    | true =>
      rw [promote, if_pos rfl, countActive, List.filter_append]
      rw [countActive] at hzero
      simp [hzero]
    | false => exact hle

/-- C3 witness: a registry with one active row, promoted successfully and
with a rollback, at concrete inputs, the invariant hypothesis discharged. -/
theorem C3_promotion_atomic_witness :
    countActive (promote [⟨1, true⟩, ⟨2, false⟩] ⟨3, false⟩ true) = 1 ∧
    promote [⟨1, true⟩, ⟨2, false⟩] ⟨3, false⟩ false = [⟨1, true⟩, ⟨2, false⟩] ∧
    countActive (promote [⟨1, true⟩, ⟨2, false⟩] ⟨3, false⟩ false) ≤ 1 :=
  ⟨(C3_promotion_atomic [⟨1, true⟩, ⟨2, false⟩] ⟨3, false⟩).1,
   (C3_promotion_atomic [⟨1, true⟩, ⟨2, false⟩] ⟨3, false⟩).2.1,
   (C3_promotion_atomic [⟨1, true⟩, ⟨2, false⟩] ⟨3, false⟩).2.2 false (by decide)⟩

/-! ### Claim C5: symbol normalization -/

theorem startsWith_iff_take (pat : List Char) :
    ∀ s : List Char, startsWith s pat = true ↔ s.take pat.length = pat := by
  induction pat with
  | nil => intro s; simp [startsWith]
  | cons p ps ih =>
    intro s
    cases s with
    | nil => simp [startsWith]
    | cons c t => simp [startsWith, List.take_succ_cons, ih t]

theorem startsWith_usdt_of_append (xxx : List Char) (hne : xxx ≠ [])
    (h : startsWith (xxx ++ usdtChars) usdtChars = true) :
    hasSub xxx usdtChars = true := by
  have htake : (xxx ++ usdtChars).take 4 = usdtChars := by
    have := (startsWith_iff_take usdtChars (xxx ++ usdtChars)).mp h
    simpa [usdtChars] using this
  by_cases hlen : 4 ≤ xxx.length
  · have h4 : xxx.take 4 = usdtChars := by
      rw [List.take_append_eq_append_take] at htake
      have hz : 4 - xxx.length = 0 := by omega
      rw [hz] at htake
      simpa using htake
    have hsw : startsWith xxx usdtChars = true := by
      rw [startsWith_iff_take]
      simpa [usdtChars] using h4
    cases xxx with
    | nil => exact absurd rfl hne
    | cons c t => simp [hasSub, hsw]
  · exfalso
    have hx : xxx = usdtChars.take xxx.length := by
      have h1 := congrArg (List.take xxx.length) htake
      rw [List.take_take, min_eq_left (by omega : xxx.length ≤ 4),
        List.take_append_eq_append_take, Nat.sub_self, List.take_zero,
        List.append_nil, List.take_length] at h1
      exact h1
    have hrest : xxx ++ usdtChars.take (4 - xxx.length) = usdtChars := by
      rw [List.take_append_eq_append_take] at htake
      rw [List.take_of_length_le (by omega)] at htake
      exact htake
    rw [hx] at hrest
    have hn1 : xxx.length = 1 ∨ xxx.length = 2 ∨ xxx.length = 3 := by
      cases xxx with
      | nil => exact absurd rfl hne
      | cons c t =>
        have h1 : (c :: t).length = t.length + 1 := rfl
        omega
    rcases hn1 with hn | hn | hn <;> rw [hn] at hrest <;>
      simp [usdtChars] at hrest

theorem replaceAllAux_no_sub (rep : List Char) :
    ∀ (fuel : ℕ) (s : List Char), hasSub s usdtChars = false →
      replaceAllAux usdtChars rep fuel s = s := by
  intro fuel
  induction fuel with
  | zero => intro s _; cases s <;> rfl
  | succ n ih =>
    intro s hs
    cases s with
    | nil => rfl
    | cons c t =>
      rw [hasSub, Bool.or_eq_false_iff] at hs
      rw [replaceAllAux, if_neg (by rw [hs.1]; exact Bool.false_ne_true)]
      rw [ih t hs.2]

theorem replaceAllAux_trailing (rep : List Char) :
    ∀ (fuel : ℕ) (xxx : List Char), xxx.length < fuel →
      hasSub xxx usdtChars = false →
      replaceAllAux usdtChars rep fuel (xxx ++ usdtChars) = xxx ++ rep := by
  intro fuel
  induction fuel with
  | zero => intro xxx hlt _; omega
  | succ n ih =>
    intro xxx hlt hsub
    cases xxx with
    | nil =>
      show replaceAllAux usdtChars rep (n + 1) usdtChars = rep
      have h1 : replaceAllAux usdtChars rep (n + 1) usdtChars =
          rep ++ replaceAllAux usdtChars rep n [] := rfl
      rw [h1]
      cases n <;> simp [replaceAllAux]
    | cons c t =>
      have hsw : startsWith (c :: (t ++ usdtChars)) usdtChars = false := by
        cases hcase : startsWith (c :: (t ++ usdtChars)) usdtChars with
        | false => rfl
        | true =>
          have := startsWith_usdt_of_append (c :: t) (by simp) hcase
          rw [this] at hsub
          exact Bool.noConfusion hsub
      rw [hasSub, Bool.or_eq_false_iff] at hsub
      rw [List.cons_append, replaceAllAux,
        if_neg (by rw [hsw]; exact Bool.false_ne_true)]
      rw [ih t (by simpa using Nat.lt_of_succ_lt_succ hlt) hsub.2]
      rfl

/-- C5 (amended): `str.replace("USDT", "-USD")` rewrites every
occurrence of USDT, not only a trailing one.  Consequently, for any
symbol `XXX ++ "USDT"` whose prefix XXX itself contains no USDT the
result is `XXX ++ "-USD"`, and a symbol containing no USDT at all
passes through unchanged. -/
theorem C5_symbol_normalization (xxx : List Char)
    (hclean : hasSub xxx usdtChars = false) :
    normalizeSymbol (xxx ++ usdtChars) = xxx ++ dashUsdChars ∧
    normalizeSymbol xxx = xxx := by
  constructor
  · rw [normalizeSymbol, pyReplace]
    exact replaceAllAux_trailing dashUsdChars (xxx ++ usdtChars).length xxx
      (by simp [usdtChars]) hclean
  · rw [normalizeSymbol, pyReplace]
    exact replaceAllAux_no_sub dashUsdChars xxx.length xxx hclean

/-- C5 counterexample: the exchange symbol USDTUSDT has the form
XXX ++ USDT with XXX = USDT; the claim says only the trailing USDT is
rewritten, giving USDT-USD, but `str.replace` rewrites both occurrences
and the code stores -USD-USD. -/
theorem C5_counterexample :
    normalizeSymbol ['U', 'S', 'D', 'T', 'U', 'S', 'D', 'T'] =
      ['-', 'U', 'S', 'D', '-', 'U', 'S', 'D'] ∧
    normalizeSymbol ['U', 'S', 'D', 'T', 'U', 'S', 'D', 'T'] ≠
      ['U', 'S', 'D', 'T'] ++ dashUsdChars := by
  refine ⟨?_, ?_⟩ <;> decide

/-- C5 witness: the amended statement for the ordinary symbol BTCUSDT
and for the USDT-free symbol BTCX. -/
theorem C5_symbol_normalization_witness :
    normalizeSymbol (['B', 'T', 'C'] ++ usdtChars) = ['B', 'T', 'C'] ++ dashUsdChars ∧
    normalizeSymbol ['B', 'T', 'C'] = ['B', 'T', 'C'] :=
  C5_symbol_normalization ['B', 'T', 'C'] (by decide)

/-! ### Claim C7: deterministic auto-labeling -/

theorem pickMax_foldl_spec {α : Type} (key : α → ℚ) :
    ∀ (l : List α) (b0 : α),
      ∃ b, List.foldl (fun acc s =>
          match acc with
          | none => some s
          | some b => if key b < key s then some s else acc) (some b0) l = some b ∧
        (b ∈ l ∨ b = b0) ∧ key b0 ≤ key b ∧ ∀ x ∈ l, key x ≤ key b := by
  intro l
  induction l with
  | nil =>
    intro b0
    exact ⟨b0, rfl, Or.inr rfl, le_refl _, by simp⟩
  | cons s t ih =>
    intro b0
    rw [List.foldl_cons]
    by_cases hlt : key b0 < key s
    · obtain ⟨b, hfold, hmem, hle, hall⟩ := ih s
      refine ⟨b, ?_, ?_, ?_, ?_⟩
      · simpa [hlt] using hfold
      · rcases hmem with hm | hm
        · exact Or.inl (List.mem_cons_of_mem _ hm)
        · exact Or.inl (hm ▸ List.mem_cons_self _ _)
      · exact le_of_lt (lt_of_lt_of_le hlt hle)
      · intro x hx
        rcases List.mem_cons.mp hx with hx | hx
        · exact hx ▸ hle
        · exact hall x hx
    · obtain ⟨b, hfold, hmem, hle, hall⟩ := ih b0
      refine ⟨b, ?_, ?_, ?_, ?_⟩
      · simpa [hlt] using hfold
      · rcases hmem with hm | hm
        · exact Or.inl (List.mem_cons_of_mem _ hm)
        · exact Or.inr hm
      · exact hle
      · intro x hx
        rcases List.mem_cons.mp hx with hx | hx
        · exact hx ▸ le_trans (le_of_not_lt hlt) hle
        · exact hall x hx

theorem pickMax_spec {α : Type} (key : α → ℚ) (l : List α) (hne : l ≠ []) :
    ∃ b, pickMax key l = some b ∧ b ∈ l ∧ ∀ x ∈ l, key x ≤ key b := by
  cases l with
  | nil => exact absurd rfl hne
  | cons s t =>
    obtain ⟨b, hfold, hmem, hle, hall⟩ := pickMax_foldl_spec key t s
    refine ⟨b, ?_, ?_, ?_⟩
    · rw [pickMax, List.foldl_cons]
      exact hfold
    · rcases hmem with hm | hm
      · exact List.mem_cons_of_mem _ hm
      · exact hm ▸ List.mem_cons_self _ _
    · intro x hx
      rcases List.mem_cons.mp hx with hx | hx
      · exact hx ▸ hle
      · exact hall x hx

theorem length_mkClusterStats (centroids : List (ℚ × ℚ)) (m0 s0 m1 s1 : ℚ) :
    (mkClusterStats centroids m0 s0 m1 s1).length = centroids.length := by
  simp [mkClusterStats, List.enum_length]

theorem getElem_mkClusterStats_cid (centroids : List (ℚ × ℚ)) (m0 s0 m1 s1 : ℚ)
    (i : ℕ) (hi : i < (mkClusterStats centroids m0 s0 m1 s1).length) :
    (mkClusterStats centroids m0 s0 m1 s1)[i].cid = i := by
  unfold mkClusterStats
  rw [List.getElem_map, List.getElem_enum]

theorem mem_sortClusterStats (stats : List CStat) (st : CStat) :
    st ∈ sortClusterStats stats ↔ st ∈ stats :=
  (List.perm_insertionSort _ stats).mem_iff

/-- C7: for every model with at least two centroids the trainer labeling
picks a PANIC centroid attaining the maximal standardized
`z_vol - z_ret` score over all centroids, then a distinct BULL centroid
attaining the maximal inverse-transformed return among the remaining
centroids, and every other centroid id keeps the generic name
`REGIME_{id}`. -/
theorem C7_auto_labeling (centroids : List (ℚ × ℚ)) (m0 s0 m1 s1 : ℚ)
    (hk : 2 ≤ centroids.length) :
    ∃ p b : CStat,
      selectPanic (mkClusterStats centroids m0 s0 m1 s1) = some p ∧
      selectBull (mkClusterStats centroids m0 s0 m1 s1) p.cid = some b ∧
      p ∈ mkClusterStats centroids m0 s0 m1 s1 ∧
      b ∈ mkClusterStats centroids m0 s0 m1 s1 ∧
      b.cid ≠ p.cid ∧
      (∀ st ∈ mkClusterStats centroids m0 s0 m1 s1,
        st.svol - st.sret ≤ p.svol - p.sret) ∧
      (∀ st ∈ mkClusterStats centroids m0 s0 m1 s1,
        st.cid ≠ p.cid → st.avg_ret ≤ b.avg_ret) ∧
      autoLabel centroids m0 s0 m1 s1 p.cid = "PANIC" ∧
      autoLabel centroids m0 s0 m1 s1 b.cid = "BULL" ∧
      (∀ cid, cid ≠ p.cid → cid ≠ b.cid →
        autoLabel centroids m0 s0 m1 s1 cid = "REGIME_" ++ toString cid) := by
  set stats := mkClusterStats centroids m0 s0 m1 s1 with hstats
  have hlen : stats.length = centroids.length := length_mkClusterStats _ _ _ _ _
  have hne : sortClusterStats stats ≠ [] := by
    intro hnil
    have := (List.perm_insertionSort
      (fun a b => b.avg_vol ≤ a.avg_vol) stats).length_eq
    rw [sortClusterStats] at hnil
    rw [hnil] at this
    simp at this
    omega
  obtain ⟨p, hpick, hpmem, hpmax⟩ :=
    pickMax_spec (fun st => st.svol - st.sret) (sortClusterStats stats) hne
  have hpmem2 : p ∈ stats := (mem_sortClusterStats stats p).mp hpmem
  -- some index other than p.cid exists among the first two stats
  have h0 : (0 : ℕ) < stats.length := by omega
  have h1 : (1 : ℕ) < stats.length := by omega
  have hc0 : stats[0].cid = 0 :=
    getElem_mkClusterStats_cid centroids m0 s0 m1 s1 0 h0
  have hc1 : stats[1].cid = 1 :=
    getElem_mkClusterStats_cid centroids m0 s0 m1 s1 1 h1
  have hother : ∃ st ∈ stats, st.cid ≠ p.cid := by
    by_cases hp0 : p.cid = 0
    · exact ⟨stats[1], List.getElem_mem h1, by rw [hc1, hp0]; omega⟩
    · exact ⟨stats[0], List.getElem_mem h0, by rw [hc0]; omega⟩
  obtain ⟨st0, hst0mem, hst0ne⟩ := hother
  have hfilne : stats.filter (fun st => decide (st.cid ≠ p.cid)) ≠ [] := by
    apply List.ne_nil_of_mem (a := st0)
    rw [List.mem_filter]
    exact ⟨hst0mem, by simpa using hst0ne⟩
  obtain ⟨b, hbpick, hbmem, hbmax⟩ :=
    pickMax_spec (fun st => st.avg_ret) (stats.filter (fun st => decide (st.cid ≠ p.cid))) hfilne
  have hbmem2 : b ∈ stats := (List.mem_filter.mp hbmem).1
  have hbne : b.cid ≠ p.cid := by
    have := (List.mem_filter.mp hbmem).2
    simpa using this
  have hpanic : selectPanic stats = some p := by
    rw [selectPanic]; exact hpick
  have hbull : selectBull stats p.cid = some b := by
    rw [selectBull]; exact hbpick
  have hlabel : autoLabel centroids m0 s0 m1 s1 = fun cid =>
      if cid = p.cid then "PANIC"
      else if cid = b.cid then "BULL"
      else "REGIME_" ++ toString cid := by
    rw [autoLabel, ← hstats]
    simp only [hpanic, hbull]
  refine ⟨p, b, hpanic, hbull, hpmem2, hbmem2, hbne, ?_, ?_, ?_, ?_, ?_⟩
  · intro st hst
    exact hpmax st ((mem_sortClusterStats stats st).mpr hst)
  · intro st hst hstne
    exact hbmax st (List.mem_filter.mpr ⟨hst, by simpa using hstne⟩)
  · rw [hlabel]; simp
  · rw [hlabel]; simp [hbne]
  · intro cid hcp hcb
    rw [hlabel]
    simp [hcp, hcb]

/-- C7 witness: two centroids with identity scaler; centroid 1 (higher
volatility, tie on score broken by the volatility-descending scan) is
PANIC, centroid 0 is BULL, and id 2 stays generic. -/
theorem C7_auto_labeling_witness :
    autoLabel [(0, 0), (1, 1)] 0 1 0 1 1 = "PANIC" ∧
    autoLabel [(0, 0), (1, 1)] 0 1 0 1 0 = "BULL" ∧
    autoLabel [(0, 0), (1, 1)] 0 1 0 1 2 = "REGIME_2" := by
  obtain ⟨p, b, hp, hb, _, _, hne, _, _, hP, hB, hR⟩ :=
    C7_auto_labeling [(0, 0), (1, 1)] 0 1 0 1 (by norm_num)
  have hpv : selectPanic (mkClusterStats [(0, 0), (1, 1)] 0 1 0 1) =
      some ⟨1, 1, 1, 1, 1⟩ := by with_unfolding_all decide
  rw [hp] at hpv
  have hpeq : p = ⟨1, 1, 1, 1, 1⟩ := Option.some.inj hpv
  have hb2 : selectBull (mkClusterStats [(0, 0), (1, 1)] 0 1 0 1) 1 = some b := by
    have h := hb
    rw [hpeq] at h
    exact h
  have hbv : selectBull (mkClusterStats [(0, 0), (1, 1)] 0 1 0 1) 1 =
      some ⟨0, 0, 0, 0, 0⟩ := by with_unfolding_all decide
  rw [hb2] at hbv
  have hbeq : b = ⟨0, 0, 0, 0, 0⟩ := Option.some.inj hbv
  have h2p : (2 : ℕ) ≠ p.cid := by rw [hpeq]; decide
  have h2b : (2 : ℕ) ≠ b.cid := by rw [hbeq]; decide
  have hstr : "REGIME_" ++ toString (2 : ℕ) = "REGIME_2" := by
    with_unfolding_all rfl
  refine ⟨?_, ?_, ?_⟩
  · have h := hP; rw [hpeq] at h; exact h
  · have h := hB; rw [hbeq] at h; exact h
  · exact (hR 2 h2p h2b).trans hstr

/-! ### Claim C6: ack discipline of the worker stream loop -/

/-- C6: an entry is acked exactly when its payload parses and
`process_candle` returns without an exception; in particular the
insufficient-data path — the classifier returns nothing on the merged
window — acks the entry while writing no result, and any parse or
processing exception leaves the entry unacked (pending for
redelivery). -/
theorem C6_ack_discipline {ρ : Type} (parse : Except String WCandle)
    (histRes : Except String (List WCandle)) (classify : List WCandle → Option ρ)
    (save : ρ → Except String Unit) :
    ((handleEntry parse histRes classify save).1 = true ↔
      ∃ c, parse = .ok c ∧ ∃ w, processCandle histRes c classify save = .ok w) ∧
    (∀ c, parse = .ok c →
      classify (mergeWindow (historyOf histRes) c) = none →
      handleEntry parse histRes classify save = (true, none)) := by
  constructor
  · constructor
    · intro hack
      cases parse with
      | error e => simp [handleEntry] at hack
      | ok c =>
        cases hproc : processCandle histRes c classify save with
        | error e => simp [handleEntry, hproc] at hack
        | ok w => exact ⟨c, rfl, w, hproc⟩
    · rintro ⟨c, hc, w, hw⟩
      rw [hc]
      simp [handleEntry, hw]
  · intro c hc hcl
    rw [hc]
    simp [handleEntry, processCandle, hcl]

/-- C6 witness: a parsed candle whose merged window the classifier cannot
classify (insufficient data) is acked with nothing written. -/
theorem C6_ack_discipline_witness :
    handleEntry (Except.ok ⟨['B'], 0⟩) (Except.ok ([] : List WCandle))
      (fun _ => (none : Option Unit)) (fun _ => Except.ok ()) = (true, none) :=
  (C6_ack_discipline (Except.ok ⟨['B'], 0⟩) (Except.ok ([] : List WCandle))
    (fun _ => (none : Option Unit)) (fun _ => Except.ok ())).2 ⟨['B'], 0⟩ rfl rfl

/-! ### Claim C9: stream publication -/

theorem publishN_length :
    ∀ (n : ℕ) (s : List StreamEntry) (e : StreamEntry),
      (publishN n s e).length = s.length + n := by
  intro n
  induction n with
  | zero => intro s e; simp [publishN]
  | succ m ih =>
    intro s e
    rw [publishN, ih]
    simp [publishCandle]
    omega

/-- C9 (amended): every `publish_candle` call appends exactly one entry
to the stream, but the `xadd` call passes no `maxlen`, so nothing trims
the stream: `m + 1` publishes starting from an empty stream leave
`m + 1` entries, exceeding any bound `m`. -/
theorem C9_publish_append (s : List StreamEntry) (e : StreamEntry) (m : ℕ) :
    (publishCandle s e).length = s.length + 1 ∧
    (publishN (m + 1) [] e).length = m + 1 ∧
    ¬ (publishN (m + 1) [] e).length ≤ m := by
  refine ⟨by simp [publishCandle], by simp [publishN_length], ?_⟩
  rw [publishN_length]
  omega

/-- C9 counterexample: with the spec default bound
`redis_stream_max_len = 10000`, one more publish onto a stream already
holding 10000 entries yields 10001 entries — the claimed trimming does
not exist in the code. -/
theorem C9_counterexample :
    (publishCandle (List.replicate 10000 ⟨['B'], 0⟩) ⟨['B'], 0⟩).length = 10001 ∧
    10000 < 10001 := by
  constructor
  · rw [publishCandle, List.length_append, List.length_replicate,
      List.length_singleton]
  · norm_num

/-! ### Claim C10: heartbeat survives publish failures -/

/-- C10: after a successful DB insert the heartbeat is set to the current
time whatever the stream publish does — `publish_candle` swallows its
exceptions, so a failed publish only loses the stream entry (the stream
is left unchanged) and cannot prevent the heartbeat update; the health
check run at that instant therefore reports the service live. -/
theorem C10_heartbeat_despite_publish_failure (st : IngestState) (now : ℤ)
    (entry : StreamEntry) (pubOk : Bool) (threshold : ℤ) (hpos : 0 < threshold) :
    (handleClosedCandle st now entry true pubOk).heartbeat = now ∧
    (handleClosedCandle st now entry true false).stream = st.stream ∧
    isHealthy (handleClosedCandle st now entry true pubOk).heartbeat now threshold = true := by
  refine ⟨rfl, rfl, ?_⟩
  have hhb : (handleClosedCandle st now entry true pubOk).heartbeat = now := rfl
  rw [hhb, isHealthy]
  simp only [sub_self, decide_eq_true_eq]
  exact hpos

/-- C10 witness: a concrete closed candle whose publish fails; the
heartbeat still advances and the health endpoint stays green. -/
theorem C10_heartbeat_witness :
    (handleClosedCandle ⟨[], [], 0⟩ 5 ⟨['B'], 0⟩ true false).heartbeat = 5 ∧
    (handleClosedCandle ⟨[], [], 0⟩ 5 ⟨['B'], 0⟩ true false).stream = [] ∧
    isHealthy (handleClosedCandle ⟨[], [], 0⟩ 5 ⟨['B'], 0⟩ true false).heartbeat 5 60 = true :=
  C10_heartbeat_despite_publish_failure ⟨[], [], 0⟩ 5 ⟨['B'], 0⟩ false 60 (by norm_num)
